import Mathlib

/-!
Verification of the two computational components of `src/app.py`:
the candidate generator `generate_demo` (lines 103-119) and the SVG icon
synthesizer `molecule_svg` (lines 122-162).

Modelling conventions.

* Python floating point arithmetic is modelled with exact rationals `ℚ`
  for the generator and with real numbers `ℝ` for the icon geometry
  (which uses `math.cos`, `math.sin`, `math.hypot`).
* The Mersenne Twister behind the `random` module is abstracted as an
  infinite stream of values of `random()`: a function `Nat → ℚ` (resp.
  `Nat → ℝ`).  The spec itself states that the concrete PRNG algorithm is
  implementation defined and only determinism for a fixed seed matters,
  so theorems quantify over an arbitrary seeding function
  `seedFn : ℤ → Nat → ℚ` mapping a seed to its output stream; where a
  property needs the guarantee that `random()` lies in `[0, 1)`, the
  theorem carries that as an explicit validity hypothesis.
* The *global* generator of the `random` module (which `generate_demo`
  reseeds and draws from) is threaded through `generate_demo` explicitly
  as a state of type `PRNG ℚ`.
* `round(x, 2)` is Python rounding: round half to even, modelled exactly
  on `ℚ`.
* `pd.DataFrame(rows).sort_values("Composite score", ascending=False)`:
  for a descending sort pandas (`nargsort`) reverses the values and the
  index array, takes an ascending argsort, and reverses the resulting
  indexer again; the numpy default quicksort runs plain stable insertion
  sort on arrays of at most 16 elements, the only sizes this app
  produces, and then the two reversals cancel on ties, so equal keys
  keep their original order.  The model is therefore
  `reverse (stable-ascending-sort (reverse rows))`.  On an empty row
  list the DataFrame has no columns at all and `sort_values` raises a
  `KeyError`, which the model returns as `Except.error`.
-/

/-- A pseudo-random generator state: the (abstracted) infinite stream of
future outputs of `random()` together with the position of the next
draw. -/
structure PRNG (α : Type) where
  stream : Nat → α
  pos : Nat

/-- One draw of `random.uniform a b`, which Python computes as
`a + (b-a)*random()`, advancing the generator. -/
def uniformQ (a b : ℚ) (g : PRNG ℚ) : ℚ × PRNG ℚ :=
  (a + (b - a) * g.stream g.pos, ⟨g.stream, g.pos + 1⟩)

/-- Round half to even on `ℚ` (the rounding mode of Python `round`). -/
def roundHalfEven (x : ℚ) : ℤ :=
  if x - ⌊x⌋ < 1/2 then ⌊x⌋
  else if 1/2 < x - ⌊x⌋ then ⌊x⌋ + 1
  else if ⌊x⌋ % 2 = 0 then ⌊x⌋ else ⌊x⌋ + 1

/-- Python `round(x, 2)` modelled exactly on `ℚ`. -/
def round2 (x : ℚ) : ℚ := (roundHalfEven (100 * x) : ℚ) / 100

/-- One row of the generated DataFrame: the five columns built at
`src/app.py` lines 111-117. -/
structure Row where
  name : String
  activity : ℚ
  toxicity : ℚ
  score : ℚ
  status : String
deriving DecidableEq, Repr

/-- Little-endian base-10 digits of `n` (with explicit fuel so that the
definition is structural).  `digitsRev n n` is the digit list of `n`. -/
def digitsRev (fuel n : ℕ) : List ℕ :=
  match fuel with
  | 0 => []
  | f + 1 => if n = 0 then [] else n % 10 :: digitsRev f (n / 10)

/-- Decimal digit characters of `n`, most significant first (empty for 0,
exactly as the digit loop of string formatting before padding). -/
def digitsStr (n : ℕ) : List Char :=
  (digitsRev n n).reverse.map fun d => Char.ofNat (48 + d)

/-- Python `"{:03d}".format n`: the decimal digits of `n`, left-padded
with the character 0 to width 3. -/
def pad3 (n : ℕ) : String :=
  ⟨List.replicate (3 - (digitsStr n).length) (Char.ofNat 48) ++ digitsStr n⟩

/-- The name given to the `i`-th generated molecule:
`f"Mol-{i:03d}"` (line 112). -/
def molName (i : ℕ) : String := "Mol-" ++ pad3 i

/-- Evaluate a digit-character list back to a number (used to recover the
generation sequence number from a name). -/
def fromDigits : List ℕ → ℕ
  | [] => 0
  | d :: t => d + 10 * fromDigits t

/-- Numeric value of a big-endian digit-character list. -/
def unpadNat (l : List Char) : ℕ := fromDigits ((l.map fun c => c.toNat - 48).reverse)

/-- The activity value of a row, as a function of the underlying
`random()` draw: `round(random.uniform(0.30, 0.95), 2)` (line 107). -/
def rowActivity (u1 : ℚ) : ℚ := round2 (30/100 + (95/100 - 30/100) * u1)

/-- The toxicity value of a row:
`round(random.uniform(0.10, 0.80), 2)` (line 108). -/
def rowToxicity (u2 : ℚ) : ℚ := round2 (10/100 + (80/100 - 10/100) * u2)

/-- The clamped raw score of a row:
`max(0.0, min(1.0, activity * (1 - toxicity) * 1.25))` (line 109). -/
def rowScore (u1 u2 : ℚ) : ℚ :=
  max 0 (min 1 (rowActivity u1 * (1 - rowToxicity u2) * (5/4)))

/-- The row built for index `i` from the two uniform draws backing it. -/
def rowOfDraws (i : ℤ) (u1 u2 : ℚ) : Row :=
  ⟨molName i.toNat, rowActivity u1, rowToxicity u2, round2 (rowScore u1 u2),
    if 7/10 ≤ rowActivity u1 ∧ rowToxicity u2 ≤ 1/2 then "priority" else "reserve"⟩

/-- The loop body of `generate_demo` (lines 106-117): draw activity and
toxicity, derive score and status, and build the row for index `i`. -/
def mkRow (i : ℤ) (g : PRNG ℚ) : Row × PRNG ℚ :=
  let p1 := uniformQ (30/100) (95/100) g
  let activity := round2 p1.1
  let p2 := uniformQ (10/100) (80/100) p1.2
  let toxicity := round2 p2.1
  let score := max 0 (min 1 (activity * (1 - toxicity) * (5/4)))
  let label := if 7/10 ≤ activity ∧ toxicity ≤ 1/2 then "priority" else "reserve"
  (⟨molName i.toNat, activity, toxicity, round2 score, label⟩, p2.2)

/-- `for i in range(1, n+1)` iterates over `1, …, n` (empty when
`n ≤ 0`). -/
def idxList (n : ℤ) : List ℤ := (List.range n.toNat).map fun k : ℕ => (k : ℤ) + 1

/-- The row-building loop of `generate_demo`, threading the global
generator through the iterations. -/
def genRows (idxs : List ℤ) (g : PRNG ℚ) : List Row × PRNG ℚ :=
  match idxs with
  | [] => ([], g)
  | i :: rest =>
    let rg := mkRow i g
    let rest' := genRows rest rg.2
    (rg.1 :: rest'.1, rest'.2)

/-- Stable ascending insertion by `score`: the inserted element goes
after every element whose key is `≤` its own. -/
def insertAsc (x : Row) : List Row → List Row
  | [] => [x]
  | h :: t => if h.score ≤ x.score then h :: insertAsc x t else x :: h :: t

/-- Stable ascending sort by `score` (elements are inserted in their
original order). -/
def sortAsc (l : List Row) : List Row := l.foldl (fun acc x => insertAsc x acc) []

/-- `pd.DataFrame(rows).sort_values("Composite score", ascending=False)`.
A DataFrame built from an empty row list has no columns, so sorting it by
a column name raises a `KeyError`; otherwise pandas reverses the rows,
takes a stable ascending argsort, and reverses the indexer again, which
keeps equal keys in their original order (see the header comment). -/
def pdSortDesc (l : List Row) : Except String (List Row) :=
  if l = [] then .error "KeyError: Composite score"
  else .ok (sortAsc l.reverse).reverse

/-- The rows list built by `generate_demo n seed` before sorting,
together with the final state of the reseeded global generator.  The
incoming global state is irrelevant because line 104 executes
`random.seed(seed)` first, which installs the stream determined by the
seed and resets the draw position. -/
def demoRows (seedFn : ℤ → Nat → ℚ) (n seed : ℤ) : List Row × PRNG ℚ :=
  genRows (idxList n) ⟨seedFn seed, 0⟩

/-- `generate_demo` (lines 103-119), as a function of the global
`random` generator state: reseed the global generator, build the rows,
sort descending by composite score.  The returned state is the global
generator state after the call. -/
def generate_demo (seedFn : ℤ → Nat → ℚ) (n seed : ℤ) (g : PRNG ℚ) :
    Except String (List Row) × PRNG ℚ :=
  let rg := demoRows seedFn n seed
  (pdSortDesc rg.1, rg.2)

/-- A stream of `random()` outputs is valid when every value lies in
`[0, 1)` (guaranteed by the Mersenne Twister). -/
def Valid01 (f : Nat → ℚ) : Prop := ∀ i, 0 ≤ f i ∧ f i < 1

/-- A seeding function is valid when every seed yields a valid stream. -/
def ValidFamQ (seedFn : ℤ → Nat → ℚ) : Prop := ∀ s, Valid01 (seedFn s)

/-- The constant stream family used for concrete witnesses. -/
def halfStream : ℤ → Nat → ℚ := fun _ _ => 1/2

/-- An arbitrary pre-call global generator state used in witnesses. -/
def gq0 : PRNG ℚ := ⟨fun _ => 0, 0⟩

/-- The first row produced by the constant-half stream (activity
`round2 0.625 = 0.62`, toxicity `round2 0.45 = 0.45`, composite
`round2 0.42625 = 0.43`, status `reserve`). -/
def rowTieA : Row := ⟨"Mol-001", 62/100, 45/100, 43/100, "reserve"⟩

/-- The second row produced by the constant-half stream; it carries the
same numeric values as `rowTieA` and differs only in the name, so the
two rows tie on composite score. -/
def rowTieB : Row := ⟨"Mol-002", 62/100, 45/100, 43/100, "reserve"⟩

/-! ### The icon synthesizer `molecule_svg` (lines 122-162)

The geometry runs in real arithmetic (standing for Python floats, which
use `math.cos`, `math.sin`, `math.hypot`).  Python's salted string hash
is modelled as an explicit function `hashFn : String → ℤ` (one such
function per process, determined by the hash salt), and
`random.Random(seed)` as a seed-indexed stream `seedFn : ℤ → Nat → ℝ`
of successive draws.  Fallible operations (float division, list
indexing) return `Except`; the SVG text is string formatting of the
returned `Icon` elements in a fixed order, so equal icons give
byte-identical SVG text and different geometry gives different text. -/

/-- A point of the icon plane. -/
abbrev Pt := ℝ × ℝ

/-- Python float division, which raises `ZeroDivisionError` on a zero
denominator. -/
noncomputable def pydiv (a b : ℝ) : Except String ℝ :=
  if b = 0 then .error "ZeroDivisionError" else .ok (a / b)

/-- Python `x or 1` on a float `x`: `1` when `x` is falsy (zero), else
`x` (the guard on lines 145 and 155). -/
noncomputable def pyOr1 (x : ℝ) : ℝ := if x = 0 then 1 else x

/-- Python list indexing: a negative index counts from the end once, and
anything still out of range raises `IndexError`. -/
def pyindex {α : Type} (l : List α) (i : ℤ) : Except String α :=
  let j := if i < 0 then i + l.length else i
  if 0 ≤ j then
    match l.get? j.toNat with
    | some a => .ok a
    | none => .error "IndexError"
  else .error "IndexError"

/-- One draw of `rng.uniform a b` on the real-valued stream. -/
noncomputable def uniformR (a b : ℝ) (g : PRNG ℝ) : ℝ × PRNG ℝ :=
  (a + (b - a) * g.stream g.pos, ⟨g.stream, g.pos + 1⟩)

/-- One draw of `rng.randint a b`: a uniform integer in `[a, b]`,
obtained from one stream draw. -/
noncomputable def randint (a b : ℤ) (g : PRNG ℝ) : ℤ × PRNG ℝ :=
  (a + ⌊g.stream g.pos * ((b : ℝ) - (a : ℝ) + 1)⌋, ⟨g.stream, g.pos + 1⟩)

/-- One substituent decoration (lines 151-160): a segment from a vertex
outward, and the filled dot placed at the far segment end. -/
structure SubDec where
  segA : Pt
  segB : Pt
  dot : Pt

/-- The geometric content of one generated icon, in emission order:
background disc (line 138), 6 hexagon edges (line 139), double-bond
offset lines (lines 141-147), substituent decorations (lines 149-160). -/
structure Icon where
  bgCenter : Pt
  bgRadius : ℝ
  edges : List (Pt × Pt)
  dbl : List (Pt × Pt)
  subs : List SubDec

/-- The six hexagon vertices (lines 128-133): vertex `k` at angle
`rot + k*π/3`, radius `r`, centre `(cx, cy)`. -/
noncomputable def hexPts (cx cy r rot : ℝ) : List Pt :=
  (List.range 6).map fun k : ℕ =>
    (cx + r * Real.cos (rot + (k : ℝ) * (Real.pi / 3)),
     cy + r * Real.sin (rot + (k : ℝ) * (Real.pi / 3)))

/-- One double-bond offset line (lines 142-147): the edge from vertex
`i` to vertex `(i+1) % 6`, both endpoints displaced by 2 pixels
perpendicular to the edge, with the `hypot or 1` guard before the
division. -/
noncomputable def dblLine (pts : List Pt) (i : ℕ) : Except String (Pt × Pt) := do
  let p1 := pts.getD i (0, 0)
  let p2 := pts.getD ((i + 1) % 6) (0, 0)
  let dx := p2.1 - p1.1
  let dy := p2.2 - p1.2
  let L := pyOr1 (Real.sqrt (dx ^ 2 + dy ^ 2))
  let oxd ← pydiv (-dy) L
  let oyd ← pydiv dx L
  return ((p1.1 + oxd * 2, p1.2 + oyd * 2), (p2.1 + oxd * 2, p2.2 + oyd * 2))

/-- The value of one double-bond offset line (the divisions performed
directly, as they always succeed thanks to the `or 1` guard). -/
noncomputable def dblFrom (pts : List Pt) (i : ℕ) : Pt × Pt :=
  let p1 := pts.getD i (0, 0)
  let p2 := pts.getD ((i + 1) % 6) (0, 0)
  let dx := p2.1 - p1.1
  let dy := p2.2 - p1.2
  let L := pyOr1 (Real.sqrt (dx ^ 2 + dy ^ 2))
  ((p1.1 + -dy / L * 2, p1.2 + dx / L * 2), (p2.1 + -dy / L * 2, p2.2 + dx / L * 2))

/-- The substituent decoration grown from vertex `p` (lines 153-160):
unit outward vector from the centre through `p`, extended by `l2`, with
the dot at the segment end. -/
noncomputable def subFrom (cx cy l2 : ℝ) (p : Pt) : SubDec :=
  let vx := p.1 - cx
  let vy := p.2 - cy
  let L := pyOr1 (Real.sqrt (vx ^ 2 + vy ^ 2))
  ⟨p, (p.1 + vx / L * l2, p.2 + vy / L * l2), (p.1 + vx / L * l2, p.2 + vy / L * l2)⟩

/-- The substituent loop (lines 151-160): draw a vertex index from the
primary stream, index into the vertex list, normalise, extend, emit
line plus dot; repeated `n_sub` times threading the generator. -/
noncomputable def subsLoop (pts : List Pt) (cx cy l2 : ℝ) :
    Nat → PRNG ℝ → Except String (List SubDec × PRNG ℝ)
  | 0, g => .ok ([], g)
  | k + 1, g => do
    let ig := randint 0 5 g
    let p ← pyindex pts ig.1
    let vx := p.1 - cx
    let vy := p.2 - cy
    let L := pyOr1 (Real.sqrt (vx ^ 2 + vy ^ 2))
    let ux ← pydiv vx L
    let uy ← pydiv vy L
    let rest ← subsLoop pts cx cy l2 k ig.2
    return (⟨p, (p.1 + ux * l2, p.2 + uy * l2), (p.1 + ux * l2, p.2 + uy * l2)⟩ :: rest.1,
      rest.2)

/-- The substituent loop with the always-successful operations performed
directly. -/
noncomputable def subsLoopPure (pts : List Pt) (cx cy l2 : ℝ) :
    Nat → PRNG ℝ → List SubDec × PRNG ℝ
  | 0, g => ([], g)
  | k + 1, g =>
    let ig := randint 0 5 g
    let p := pts.getD ig.1.toNat (0, 0)
    let rest := subsLoopPure pts cx cy l2 k ig.2
    (subFrom cx cy l2 p :: rest.1, rest.2)

/-- `molecule_svg` (lines 122-162): seed one PRNG from
`hash(name) % 10**7`, draw the rotation, place the hexagon, emit the
edges, the three double-bond offsets (even-indexed edges 0, 2, 4), and
`n_sub ∈ [1,3]` substituents, where `n_sub` comes from a second PRNG
seeded from `hash(name) % 10**6`. -/
noncomputable def molecule_svg (hashFn : String → ℤ) (seedFn : ℤ → Nat → ℝ)
    (name : String) (size : ℤ) : Except String Icon := do
  let rng0 : PRNG ℝ := ⟨seedFn (hashFn name % 10 ^ 7), 0⟩
  let cx := (size : ℝ) / 2
  let cy := (size : ℝ) / 2
  let r := (size : ℝ) * (26 / 100)
  let rotg := uniformR 0 (Real.pi / 3) rng0
  let pts := hexPts cx cy r rotg.1
  let edges := (List.range 6).map fun i =>
    (pts.getD i (0, 0), pts.getD ((i + 1) % 6) (0, 0))
  let d0 ← dblLine pts 0
  let d2 ← dblLine pts 2
  let d4 ← dblLine pts 4
  let dbl := [d0, d2, d4]
  let nsub := (randint 1 3 ⟨seedFn (hashFn name % 10 ^ 6), 0⟩).1
  let subs ← subsLoop pts cx cy ((size : ℝ) * (24 / 100)) nsub.toNat rotg.2
  return ⟨(cx, cy), (size : ℝ) * (44 / 100), edges, dbl, subs.1⟩

/-- The icon produced when every fallible step succeeds (which the
`or 1` guards and the ranges of `randint` ensure). -/
noncomputable def iconPure (hashFn : String → ℤ) (seedFn : ℤ → Nat → ℝ)
    (name : String) (size : ℤ) : Icon :=
  let rng0 : PRNG ℝ := ⟨seedFn (hashFn name % 10 ^ 7), 0⟩
  let cx := (size : ℝ) / 2
  let cy := (size : ℝ) / 2
  let r := (size : ℝ) * (26 / 100)
  let rotg := uniformR 0 (Real.pi / 3) rng0
  let pts := hexPts cx cy r rotg.1
  let edges := (List.range 6).map fun i =>
    (pts.getD i (0, 0), pts.getD ((i + 1) % 6) (0, 0))
  let dbl := [dblFrom pts 0, dblFrom pts 2, dblFrom pts 4]
  let nsub := (randint 1 3 ⟨seedFn (hashFn name % 10 ^ 6), 0⟩).1
  let subs := subsLoopPure pts cx cy ((size : ℝ) * (24 / 100)) nsub.toNat rotg.2
  ⟨(cx, cy), (size : ℝ) * (44 / 100), edges, dbl, subs.1⟩

/-- A real-valued stream of `random()` outputs is valid when every value
lies in `[0, 1)`. -/
def Valid01R (f : Nat → ℝ) : Prop := ∀ i, 0 ≤ f i ∧ f i < 1

/-- A real-valued seeding function is valid when every seed yields a
valid stream. -/
def ValidFamR (seedFn : ℤ → Nat → ℝ) : Prop := ∀ s, Valid01R (seedFn s)

/-- Constant-half real stream family, for witnesses. -/
noncomputable def halfStreamR : ℤ → Nat → ℝ := fun _ _ => 1/2

/-- A process whose string hash sends every name to 0. -/
def hashFnZero : String → ℤ := fun _ => 0

/-- A process whose string hash sends every name to 1. -/
def hashFnOne : String → ℤ := fun _ => 1

/-- A seed-sensitive stream family: seed 0 yields the constant-zero
stream, any other seed the constant-half stream. -/
noncomputable def seedFnTwo : ℤ → Nat → ℝ := fun s _ => if s = 0 then 0 else 1/2

/-! ### Basic lemmas about the generator -/

theorem roundHalfEven_bounds (x : ℚ) :
    x - 1/2 ≤ (roundHalfEven x : ℚ) ∧ (roundHalfEven x : ℚ) ≤ x + 1/2 := by
  have h1 : (⌊x⌋ : ℚ) ≤ x := Int.floor_le x
  have h2 : x < ⌊x⌋ + 1 := Int.lt_floor_add_one x
  unfold roundHalfEven
  split
  · next h => exact ⟨by linarith, by linarith⟩
  · next h =>
    have h' : 1/2 ≤ x - ⌊x⌋ := not_lt.1 h
    split
    · next h'' => push_cast; exact ⟨by linarith, by linarith⟩
    · next h'' =>
      have he : x - ⌊x⌋ = 1/2 := le_antisymm (not_lt.1 h'') h'
      split
      · exact ⟨by linarith, by linarith⟩
      · push_cast; exact ⟨by linarith, by linarith⟩

theorem le_round2_of_le {x : ℚ} {l : ℤ} (h : (l : ℚ) ≤ 100 * x) :
    (l : ℚ) ≤ 100 * round2 x := by
  obtain ⟨b1, _⟩ := roundHalfEven_bounds (100 * x)
  have hq : (l : ℚ) - 1 < (roundHalfEven (100 * x) : ℚ) := by linarith
  have hz : l - 1 < roundHalfEven (100 * x) := by exact_mod_cast hq
  have hz' : l ≤ roundHalfEven (100 * x) := by omega
  have hle : (l : ℚ) ≤ (roundHalfEven (100 * x) : ℚ) := by exact_mod_cast hz'
  unfold round2
  rw [mul_comm, div_mul_cancel₀ _ (by norm_num : (100 : ℚ) ≠ 0)]
  exact hle

theorem round2_le_of_le {x : ℚ} {u : ℤ} (h : 100 * x ≤ (u : ℚ)) :
    100 * round2 x ≤ (u : ℚ) := by
  obtain ⟨_, b2⟩ := roundHalfEven_bounds (100 * x)
  have hq : (roundHalfEven (100 * x) : ℚ) < (u : ℚ) + 1 := by linarith
  have hz : roundHalfEven (100 * x) < u + 1 := by exact_mod_cast hq
  have hz' : roundHalfEven (100 * x) ≤ u := by omega
  have hle : (roundHalfEven (100 * x) : ℚ) ≤ (u : ℚ) := by exact_mod_cast hz'
  unfold round2
  rw [mul_comm, div_mul_cancel₀ _ (by norm_num : (100 : ℚ) ≠ 0)]
  exact hle

theorem rowActivity_range {u : ℚ} (h0 : 0 ≤ u) (h1 : u < 1) :
    30/100 ≤ rowActivity u ∧ rowActivity u ≤ 95/100 := by
  have hm := mul_nonneg (by norm_num : (0 : ℚ) ≤ 95/100 - 30/100) h0
  have hm2 := mul_lt_mul_of_pos_left h1 (by norm_num : (0 : ℚ) < 95/100 - 30/100)
  have l := le_round2_of_le
    (show ((30 : ℤ) : ℚ) ≤ 100 * (30/100 + (95/100 - 30/100) * u) by push_cast; linarith)
  have r := round2_le_of_le
    (show 100 * (30/100 + (95/100 - 30/100) * u) ≤ ((95 : ℤ) : ℚ) by push_cast; linarith)
  unfold rowActivity
  push_cast at l r
  constructor <;> linarith

theorem rowToxicity_range {u : ℚ} (h0 : 0 ≤ u) (h1 : u < 1) :
    10/100 ≤ rowToxicity u ∧ rowToxicity u ≤ 80/100 := by
  have hm := mul_nonneg (by norm_num : (0 : ℚ) ≤ 80/100 - 10/100) h0
  have hm2 := mul_lt_mul_of_pos_left h1 (by norm_num : (0 : ℚ) < 80/100 - 10/100)
  have l := le_round2_of_le
    (show ((10 : ℤ) : ℚ) ≤ 100 * (10/100 + (80/100 - 10/100) * u) by push_cast; linarith)
  have r := round2_le_of_le
    (show 100 * (10/100 + (80/100 - 10/100) * u) ≤ ((80 : ℤ) : ℚ) by push_cast; linarith)
  unfold rowToxicity
  push_cast at l r
  constructor <;> linarith

theorem rowScore_round_range (u1 u2 : ℚ) :
    0 ≤ round2 (rowScore u1 u2) ∧ round2 (rowScore u1 u2) ≤ 1 := by
  have hl : (0 : ℚ) ≤ rowScore u1 u2 :=
    le_max_left (0 : ℚ) (min 1 (rowActivity u1 * (1 - rowToxicity u2) * (5/4)))
  have hu : rowScore u1 u2 ≤ (1 : ℚ) :=
    max_le (by norm_num) (min_le_left _ _)
  have l := le_round2_of_le
    (show ((0 : ℤ) : ℚ) ≤ 100 * rowScore u1 u2 by push_cast; linarith)
  have r := round2_le_of_le
    (show 100 * rowScore u1 u2 ≤ ((100 : ℤ) : ℚ) by push_cast; linarith)
  push_cast at l r
  constructor <;> linarith

theorem rowOfDraws_status (i : ℤ) (u1 u2 : ℚ) :
    (rowOfDraws i u1 u2).status = "priority" ↔
      7/10 ≤ (rowOfDraws i u1 u2).activity ∧ (rowOfDraws i u1 u2).toxicity ≤ 1/2 := by
  show (if 7/10 ≤ rowActivity u1 ∧ rowToxicity u2 ≤ 1/2
        then "priority" else "reserve") = "priority" ↔ _
  by_cases h : 7/10 ≤ rowActivity u1 ∧ rowToxicity u2 ≤ 1/2
  · rw [if_pos h]; exact iff_of_true rfl h
  · rw [if_neg h]; exact iff_of_false (by decide) h

theorem mkRow_fst (i : ℤ) (g : PRNG ℚ) :
    (mkRow i g).1 = rowOfDraws i (g.stream g.pos) (g.stream (g.pos + 1)) := rfl

theorem mkRow_snd (i : ℤ) (g : PRNG ℚ) : (mkRow i g).2 = ⟨g.stream, g.pos + 2⟩ := rfl

theorem genRows_cons (i : ℤ) (rest : List ℤ) (g : PRNG ℚ) :
    genRows (i :: rest) g =
      ((mkRow i g).1 :: (genRows rest (mkRow i g).2).1, (genRows rest (mkRow i g).2).2) :=
  rfl

theorem mem_genRows {idxs : List ℤ} {g : PRNG ℚ} {r : Row}
    (h : r ∈ (genRows idxs g).1) :
    ∃ i ∈ idxs, ∃ p : Nat, r = rowOfDraws i (g.stream p) (g.stream (p + 1)) := by
  induction idxs generalizing g with
  | nil => simp [genRows] at h
  | cons i rest ih =>
    rw [genRows_cons] at h
    rcases List.mem_cons.1 h with h1 | h2
    · exact ⟨i, List.mem_cons_self _ _, g.pos, by rw [h1, mkRow_fst]⟩
    · rw [mkRow_snd] at h2
      obtain ⟨j, hj, p, hp⟩ := ih h2
      exact ⟨j, List.mem_cons_of_mem _ hj, p, hp⟩

theorem insertAsc_perm (x : Row) (l : List Row) :
    List.Perm (insertAsc x l) (x :: l) := by
  induction l with
  | nil => exact List.Perm.refl _
  | cons h t ih =>
    unfold insertAsc
    split
    · exact (ih.cons h).trans (List.Perm.swap x h t)
    · exact List.Perm.refl _

theorem foldl_insertAsc_perm (l acc : List Row) :
    List.Perm (l.foldl (fun a x => insertAsc x a) acc) (acc ++ l) := by
  induction l generalizing acc with
  | nil =>
    simp only [List.foldl_nil, List.append_nil]
    exact List.Perm.refl acc
  | cons h t ih =>
    simp only [List.foldl_cons]
    have s1 := ih (insertAsc h acc)
    have s2 := (insertAsc_perm h acc).append_right t
    have s3 : List.Perm ((h :: acc) ++ t) (acc ++ h :: t) := List.perm_middle.symm
    exact (s1.trans s2).trans s3

theorem sortAsc_perm (l : List Row) : List.Perm (sortAsc l) l := by
  simpa using foldl_insertAsc_perm l []

theorem generate_demo_fst (seedFn : ℤ → Nat → ℚ) (n seed : ℤ) (g : PRNG ℚ) :
    (generate_demo seedFn n seed g).1 = pdSortDesc (demoRows seedFn n seed).1 :=
  rfl

theorem generate_demo_ok {seedFn : ℤ → Nat → ℚ} {n seed : ℤ} {g : PRNG ℚ}
    {out : List Row} (h : (generate_demo seedFn n seed g).1 = .ok out) :
    out = (sortAsc (demoRows seedFn n seed).1.reverse).reverse := by
  rw [generate_demo_fst] at h
  unfold pdSortDesc at h
  split at h
  · cases h
  · cases h; rfl

theorem mem_demoRows {seedFn : ℤ → Nat → ℚ} {n seed : ℤ} {r : Row}
    (hr : r ∈ (demoRows seedFn n seed).1) :
    ∃ i ∈ idxList n, ∃ p : Nat, r = rowOfDraws i (seedFn seed p) (seedFn seed (p + 1)) := by
  unfold demoRows at hr
  have h2 := mem_genRows hr
  simpa using h2

theorem mem_out_char {seedFn : ℤ → Nat → ℚ} {n seed : ℤ} {g : PRNG ℚ}
    {out : List Row} {r : Row} (h : (generate_demo seedFn n seed g).1 = .ok out)
    (hr : r ∈ out) :
    ∃ i ∈ idxList n, ∃ p : Nat, r = rowOfDraws i (seedFn seed p) (seedFn seed (p + 1)) := by
  rw [generate_demo_ok h, List.mem_reverse] at hr
  have hr2 : r ∈ (demoRows seedFn n seed).1.reverse := (sortAsc_perm _).mem_iff.1 hr
  rw [List.mem_reverse] at hr2
  exact mem_demoRows hr2

/-! ### Names: digits, padding and the round-trip back to the index -/

theorem fromDigits_append (l1 l2 : List ℕ) :
    fromDigits (l1 ++ l2) = fromDigits l1 + 10 ^ l1.length * fromDigits l2 := by
  induction l1 with
  | nil => simp [fromDigits]
  | cons d t ih =>
    simp only [List.cons_append, fromDigits, List.length_cons, List.append_eq]
    rw [ih]
    ring

theorem fromDigits_replicate_zero (k : ℕ) :
    fromDigits (List.replicate k 0) = 0 := by
  induction k with
  | zero => rfl
  | succ m ih => simp [List.replicate_succ, fromDigits, ih]

theorem fromDigits_digitsRev {fuel n : ℕ} (h : n ≤ fuel) :
    fromDigits (digitsRev fuel n) = n := by
  induction fuel generalizing n with
  | zero =>
    have hn : n = 0 := Nat.le_zero.1 h
    subst hn; rfl
  | succ f ih =>
    unfold digitsRev
    split
    · next h0 => simp [fromDigits, h0]
    · next h0 =>
      have hdiv : n / 10 ≤ f := by
        have : n / 10 < n := Nat.div_lt_self (Nat.pos_of_ne_zero h0) (by norm_num)
        omega
      simp only [fromDigits, ih hdiv]
      omega

theorem mem_digitsRev_lt {fuel n d : ℕ} (h : d ∈ digitsRev fuel n) : d < 10 := by
  induction fuel generalizing n with
  | zero => simp [digitsRev] at h
  | succ f ih =>
    unfold digitsRev at h
    split at h
    · simp at h
    · rcases List.mem_cons.1 h with h1 | h2
      · rw [h1]; exact Nat.mod_lt _ (by norm_num)
      · exact ih h2

theorem map_digitVal_digitsStr (n : ℕ) :
    (digitsStr n).map (fun c => c.toNat - 48) = (digitsRev n n).reverse := by
  unfold digitsStr
  rw [List.map_map]
  have hcongr : ∀ d ∈ (digitsRev n n).reverse,
      ((fun c : Char => c.toNat - 48) ∘ fun d => Char.ofNat (48 + d)) d = id d := by
    intro d hd
    have hd10 : d < 10 := mem_digitsRev_lt (List.mem_reverse.1 hd)
    show (Char.ofNat (48 + d)).toNat - 48 = d
    interval_cases d <;> rfl
  rw [List.map_congr_left hcongr, List.map_id]

theorem unpad_pad3 (n : ℕ) : unpadNat (pad3 n).data = n := by
  show fromDigits ((((List.replicate (3 - (digitsStr n).length) (Char.ofNat 48)) ++
    digitsStr n).map fun c => c.toNat - 48).reverse) = n
  rw [List.map_append, List.reverse_append, List.map_replicate,
    show (Char.ofNat 48).toNat - 48 = 0 from rfl, List.reverse_replicate,
    map_digitVal_digitsStr, List.reverse_reverse, fromDigits_append,
    fromDigits_replicate_zero, fromDigits_digitsRev (le_refl n)]
  ring

theorem unpad_drop_molName (k : ℕ) : unpadNat ((molName k).data.drop 4) = k := by
  rw [show (molName k).data = "Mol-".data ++ (pad3 k).data from rfl,
    show (4 : ℕ) = ("Mol-".data).length from rfl, List.drop_left]
  exact unpad_pad3 k

theorem molName_inj : Function.Injective molName := by
  intro a b h
  have h2 := congrArg (fun s : String => unpadNat (s.data.drop 4)) h
  simpa [unpad_drop_molName] using h2

theorem genRows_names (idxs : List ℤ) (g : PRNG ℚ) :
    (genRows idxs g).1.map Row.name = idxs.map fun i => molName i.toNat := by
  induction idxs generalizing g with
  | nil => rfl
  | cons i rest ih =>
    simp only [genRows_cons, List.map_cons]
    rw [ih]
    rfl

theorem genRows_length (idxs : List ℤ) (g : PRNG ℚ) :
    (genRows idxs g).1.length = idxs.length := by
  have h := congrArg List.length (genRows_names idxs g)
  simpa using h

theorem demoRows_length (seedFn : ℤ → Nat → ℚ) (n seed : ℤ) :
    (demoRows seedFn n seed).1.length = n.toNat := by
  unfold demoRows
  rw [genRows_length]
  unfold idxList
  rw [List.length_map, List.length_range]

theorem demoRows_nil_iff (seedFn : ℤ → Nat → ℚ) (n seed : ℤ) :
    (demoRows seedFn n seed).1 = [] ↔ n ≤ 0 := by
  rw [← List.length_eq_zero, demoRows_length, Int.toNat_eq_zero]

theorem generate_demo_error_iff (seedFn : ℤ → Nat → ℚ) (n seed : ℤ) (g : PRNG ℚ) :
    (∃ e, (generate_demo seedFn n seed g).1 = .error e) ↔ n ≤ 0 := by
  rw [generate_demo_fst]
  unfold pdSortDesc
  split
  · next he => exact iff_of_true ⟨_, rfl⟩ ((demoRows_nil_iff seedFn n seed).1 he)
  · next he =>
    refine iff_of_false ?_ fun hn => he ((demoRows_nil_iff seedFn n seed).2 hn)
    rintro ⟨e, hcontra⟩
    cases hcontra

theorem demoRows_names (seedFn : ℤ → Nat → ℚ) (n seed : ℤ) :
    (demoRows seedFn n seed).1.map Row.name =
      (List.range n.toNat).map fun k => molName (k + 1) := by
  unfold demoRows
  rw [genRows_names]
  unfold idxList
  rw [List.map_map]
  refine List.map_congr_left ?_
  intro k _
  show molName ((k : ℤ) + 1).toNat = molName (k + 1)
  congr 1

/-! ### Order of the sorted batch -/

theorem halfStream_valid : ValidFamQ halfStream := fun _ _ => ⟨by norm_num [halfStream], by norm_num [halfStream]⟩

theorem tied_run_eval :
    (generate_demo halfStream 2 0 gq0).1 = .ok [rowTieA, rowTieB] := by
  with_unfolding_all rfl

/-- C1: for every count and every seed, two calls to the generator with
the same `(count, seed)` pair return identical record sequences — here
stated for any two pre-call states of the global generator (in
particular for a second call made right after a first one), because
`random.seed(seed)` makes the result independent of the pre-call
state. -/
theorem C1_generator_deterministic (seedFn : ℤ → Nat → ℚ) (n seed : ℤ)
    (g g' : PRNG ℚ) :
    (generate_demo seedFn n seed g).1 = (generate_demo seedFn n seed g').1 := rfl

/-- C3: every record of a generated batch has activity in
`[0.30, 0.95]`, toxicity in `[0.10, 0.80]` and composite score in
`[0, 1]`, all after rounding to 2 decimals. -/
theorem C3_range_invariants (seedFn : ℤ → Nat → ℚ) (hv : ValidFamQ seedFn)
    (n seed : ℤ) (hn : 1 ≤ n) (g : PRNG ℚ) (out : List Row)
    (hout : (generate_demo seedFn n seed g).1 = .ok out) :
    ∀ r ∈ out,
      30/100 ≤ r.activity ∧ r.activity ≤ 95/100 ∧
      10/100 ≤ r.toxicity ∧ r.toxicity ≤ 80/100 ∧
      0 ≤ r.score ∧ r.score ≤ 1 := by
  intro r hr
  obtain ⟨i, _, p, hp⟩ := mem_out_char hout hr
  subst hp
  obtain ⟨ha0, ha1⟩ := hv seed p
  obtain ⟨hb0, hb1⟩ := hv seed (p + 1)
  obtain ⟨r1, r2⟩ := rowActivity_range ha0 ha1
  obtain ⟨r3, r4⟩ := rowToxicity_range hb0 hb1
  obtain ⟨r5, r6⟩ := rowScore_round_range (seedFn seed p) (seedFn seed (p + 1))
  exact ⟨r1, r2, r3, r4, r5, r6⟩

/-- Witness for C3: the hypotheses hold at
`(count, seed) = (2, 0)` with the constant-half stream family, and the
range invariants hold on the concrete output batch. -/
theorem C3_witness :
    ValidFamQ halfStream ∧ (1 : ℤ) ≤ 2 ∧
      (generate_demo halfStream 2 0 gq0).1 = .ok [rowTieA, rowTieB] ∧
      (∀ r ∈ [rowTieA, rowTieB],
        30/100 ≤ r.activity ∧ r.activity ≤ 95/100 ∧
        10/100 ≤ r.toxicity ∧ r.toxicity ≤ 80/100 ∧
        0 ≤ r.score ∧ r.score ≤ 1) :=
  ⟨halfStream_valid, by norm_num, tied_run_eval,
    C3_range_invariants halfStream halfStream_valid 2 0 (by norm_num) gq0
      [rowTieA, rowTieB] tied_run_eval⟩

/-- C4: every record of a generated batch has
`compositeScore = round(max(0, min(1, activity * (1 - toxicity) * 1.25)), 2)`
(computed from the already-rounded activity and toxicity columns), and
status `"priority"` exactly when `activity ≥ 0.70` and
`toxicity ≤ 0.50`. -/
theorem C4_derived_fields (seedFn : ℤ → Nat → ℚ) (n seed : ℤ) (g : PRNG ℚ)
    (out : List Row) (hout : (generate_demo seedFn n seed g).1 = .ok out) :
    ∀ r ∈ out,
      r.score = round2 (max 0 (min 1 (r.activity * (1 - r.toxicity) * (5/4)))) ∧
      (r.status = "priority" ↔ 7/10 ≤ r.activity ∧ r.toxicity ≤ 1/2) := by
  intro r hr
  obtain ⟨i, _, p, hp⟩ := mem_out_char hout hr
  subst hp
  exact ⟨rfl, rowOfDraws_status i _ _⟩

/-- Witness for C4: the derived-field postcondition, instantiated on the
concrete batch generated by the constant-half stream at
`(count, seed) = (2, 0)`. -/
theorem C4_witness :
    (generate_demo halfStream 2 0 gq0).1 = .ok [rowTieA, rowTieB] ∧
      rowTieA ∈ [rowTieA, rowTieB] ∧
      (rowTieA.score =
        round2 (max 0 (min 1 (rowTieA.activity * (1 - rowTieA.toxicity) * (5/4)))) ∧
       (rowTieA.status = "priority" ↔
         7/10 ≤ rowTieA.activity ∧ rowTieA.toxicity ≤ 1/2)) :=
  ⟨tied_run_eval, List.mem_cons_self _ _,
    C4_derived_fields halfStream 2 0 gq0 [rowTieA, rowTieB] tied_run_eval rowTieA
      (List.mem_cons_self _ _)⟩

/-- C7 is false of the code: `generate_demo` reseeds and draws from the
shared module-level generator (`random.seed` / `random.uniform`), so the
global PRNG state after the call differs from the state before it.  At
the concrete input `(count, seed) = (1, 0)` with pre-call state `gq0`,
the call replaces the stream and leaves the draw position at 2. -/
theorem C7_counterexample : ¬ ((generate_demo halfStream 1 0 gq0).2 = gq0) := by
  intro h
  have hp : (generate_demo halfStream 1 0 gq0).2.pos = gq0.pos := by rw [h]
  rw [show (generate_demo halfStream 1 0 gq0).2.pos = 2 from rfl] at hp
  simp [gq0] at hp

/-- C7 amended: `generate_demo` does mutate the shared global generator
(it reseeds it and consumes two draws per record), but the call is
insensitive to all pre-call state: both the returned batch and the
post-call global generator state are functions of `(count, seed)` alone. -/
theorem C7_amended_frame (seedFn : ℤ → Nat → ℚ) (n seed : ℤ) (g g' : PRNG ℚ) :
    generate_demo seedFn n seed g = generate_demo seedFn n seed g' := rfl

/-- C6: a batch generated from `count = n ≥ 1` has exactly `n` records;
before sorting, the record at (1-indexed) position `i` is named
`"Mol-" ++ zero-pad(i, 3)`; and the names in the returned batch are
pairwise distinct. -/
theorem C6_shape_naming (seedFn : ℤ → Nat → ℚ) (n seed : ℤ) (hn : 1 ≤ n)
    (g : PRNG ℚ) (out : List Row)
    (hout : (generate_demo seedFn n seed g).1 = .ok out) :
    (out.length : ℤ) = n ∧
    (demoRows seedFn n seed).1.map Row.name =
      (List.range n.toNat).map (fun k => molName (k + 1)) ∧
    (out.map Row.name).Nodup := by
  have hperm : List.Perm out (demoRows seedFn n seed).1 := by
    rw [generate_demo_ok hout]
    exact (List.reverse_perm _).trans ((sortAsc_perm _).trans (List.reverse_perm _))
  refine ⟨?_, demoRows_names seedFn n seed, ?_⟩
  · rw [hperm.length_eq, demoRows_length]
    omega
  · refine ((hperm.map Row.name).nodup_iff).2 ?_
    rw [demoRows_names]
    refine List.Nodup.map ?_ (List.nodup_range _)
    intro a b hab
    have h2 := molName_inj hab
    omega

/-- Witness for C6 at `(count, seed) = (2, 0)` with the constant-half
stream. -/
theorem C6_witness :
    (1 : ℤ) ≤ 2 ∧ (generate_demo halfStream 2 0 gq0).1 = .ok [rowTieA, rowTieB] ∧
    ((([rowTieA, rowTieB] : List Row).length : ℤ) = 2 ∧
      (demoRows halfStream 2 0).1.map Row.name =
        (List.range (2 : ℤ).toNat).map (fun k => molName (k + 1)) ∧
      (([rowTieA, rowTieB].map Row.name)).Nodup) :=
  ⟨by norm_num, tied_run_eval,
    C6_shape_naming halfStream 2 0 (by norm_num) gq0 _ tied_run_eval⟩

/-! ### Icon lemmas -/

theorem ok_bind {α β : Type} (a : α) (k : α → Except String β) :
    ((Except.ok a : Except String α) >>= k) = k a := rfl

theorem pydiv_ok (a : ℝ) {b : ℝ} (hb : b ≠ 0) : pydiv a b = .ok (a / b) := by
  unfold pydiv
  rw [if_neg hb]

theorem pyOr1_ne_zero (x : ℝ) : pyOr1 x ≠ 0 := by
  unfold pyOr1
  split
  · norm_num
  · assumption

theorem pyindex_ok_getD {α : Type} (l : List α) (i : ℤ) (d : α) (h0 : 0 ≤ i)
    (hlt : i.toNat < l.length) : pyindex l i = .ok (l.getD i.toNat d) := by
  simp only [pyindex]
  rw [if_neg (not_lt.2 h0), if_pos h0, List.get?_eq_getElem?,
    List.getElem?_eq_getElem hlt, List.getD_eq_getElem l d hlt]

theorem dblLine_ok (pts : List Pt) (i : ℕ) : dblLine pts i = .ok (dblFrom pts i) := by
  simp only [dblLine, dblFrom]
  rw [pydiv_ok _ (pyOr1_ne_zero _), ok_bind, pydiv_ok _ (pyOr1_ne_zero _), ok_bind]
  rfl

theorem randint_bounds (a b : ℤ) (hab : a ≤ b) {g : PRNG ℝ}
    (hg : Valid01R g.stream) :
    a ≤ (randint a b g).1 ∧ (randint a b g).1 ≤ b := by
  obtain ⟨h0, h1⟩ := hg g.pos
  have hc : (0 : ℝ) < (b : ℝ) - (a : ℝ) + 1 := by
    have hab' : (a : ℝ) ≤ (b : ℝ) := by exact_mod_cast hab
    linarith
  constructor
  · have hnn : (0 : ℤ) ≤ ⌊g.stream g.pos * ((b : ℝ) - (a : ℝ) + 1)⌋ :=
      Int.floor_nonneg.2 (mul_nonneg h0 hc.le)
    simp only [randint]
    omega
  · have hlt : g.stream g.pos * ((b : ℝ) - (a : ℝ) + 1) < (b : ℝ) - (a : ℝ) + 1 := by
      nlinarith
    have h2 : ⌊g.stream g.pos * ((b : ℝ) - (a : ℝ) + 1)⌋ < b - a + 1 :=
      Int.floor_lt.2 (by push_cast; linarith)
    simp only [randint]
    omega

theorem hexPts_length (cx cy r rot : ℝ) : (hexPts cx cy r rot).length = 6 := by
  simp [hexPts]

theorem subsLoop_eq (pts : List Pt) (cx cy l2 : ℝ) (hlen : pts.length = 6) :
    ∀ (k : ℕ) (g : PRNG ℝ), Valid01R g.stream →
      subsLoop pts cx cy l2 k g = .ok (subsLoopPure pts cx cy l2 k g) := by
  intro k
  induction k with
  | zero => intro g _; rfl
  | succ k ih =>
    intro g hg
    obtain ⟨hi0, hi5⟩ := randint_bounds 0 5 (by norm_num) hg
    have hi6 : ((randint 0 5 g).1).toNat < pts.length := by
      rw [hlen]; omega
    simp only [subsLoop, subsLoopPure]
    rw [pyindex_ok_getD pts _ (0, 0) hi0 hi6, ok_bind,
      pydiv_ok _ (pyOr1_ne_zero _), ok_bind,
      pydiv_ok _ (pyOr1_ne_zero _), ok_bind,
      ih ((randint 0 5 g).2) hg, ok_bind]
    rfl

theorem subsLoopPure_length (pts : List Pt) (cx cy l2 : ℝ) :
    ∀ (k : ℕ) (g : PRNG ℝ), (subsLoopPure pts cx cy l2 k g).1.length = k := by
  intro k
  induction k with
  | zero => intro g; rfl
  | succ k ih =>
    intro g
    simp only [subsLoopPure, List.length_cons, ih]

theorem subsLoopPure_mem (pts : List Pt) (cx cy l2 : ℝ) (hlen : pts.length = 6) :
    ∀ (k : ℕ) (g : PRNG ℝ), Valid01R g.stream →
      ∀ s ∈ (subsLoopPure pts cx cy l2 k g).1, ∃ p ∈ pts, s = subFrom cx cy l2 p := by
  intro k
  induction k with
  | zero => intro g _ s hs; simp [subsLoopPure] at hs
  | succ k ih =>
    intro g hg s hs
    simp only [subsLoopPure, List.mem_cons] at hs
    rcases hs with hs | hs
    · obtain ⟨hi0, hi5⟩ := randint_bounds 0 5 (by norm_num) hg
      have hi6 : ((randint 0 5 g).1).toNat < pts.length := by rw [hlen]; omega
      refine ⟨pts.getD ((randint 0 5 g).1).toNat (0, 0), ?_, hs⟩
      rw [List.getD_eq_getElem pts (0, 0) hi6]
      exact List.getElem_mem hi6
    · exact ih ((randint 0 5 g).2) hg s hs

theorem molecule_svg_eq (hashFn : String → ℤ) (seedFn : ℤ → Nat → ℝ)
    (hv : ValidFamR seedFn) (name : String) (size : ℤ) :
    molecule_svg hashFn seedFn name size =
      .ok (iconPure hashFn seedFn name size) := by
  simp only [molecule_svg, iconPure]
  rw [dblLine_ok, ok_bind, dblLine_ok, ok_bind, dblLine_ok, ok_bind,
    subsLoop_eq _ _ _ _ (hexPts_length _ _ _ _) _ _ (hv _), ok_bind]
  rfl

theorem iconPure_edges_length (hashFn : String → ℤ) (seedFn : ℤ → Nat → ℝ)
    (name : String) (size : ℤ) :
    (iconPure hashFn seedFn name size).edges.length = 6 := by
  simp [iconPure]

theorem iconPure_dbl_length (hashFn : String → ℤ) (seedFn : ℤ → Nat → ℝ)
    (name : String) (size : ℤ) :
    (iconPure hashFn seedFn name size).dbl.length = 3 := rfl

theorem iconPure_subs_length (hashFn : String → ℤ) (seedFn : ℤ → Nat → ℝ)
    (name : String) (size : ℤ) :
    (iconPure hashFn seedFn name size).subs.length =
      ((randint 1 3 ⟨seedFn (hashFn name % 10 ^ 6), 0⟩).1).toNat := by
  simp only [iconPure]
  rw [subsLoopPure_length]

theorem dist_subFrom (cx cy r rot l2 : ℝ) (hr : 0 < r) (hl2 : 0 ≤ l2)
    {p : Pt} (hp : p ∈ hexPts cx cy r rot) :
    Real.sqrt (((subFrom cx cy l2 p).segB.1 - (subFrom cx cy l2 p).segA.1) ^ 2 +
        ((subFrom cx cy l2 p).segB.2 - (subFrom cx cy l2 p).segA.2) ^ 2) = l2 := by
  obtain ⟨k, -, heq⟩ := List.mem_map.1 hp
  subst heq
  set θ := rot + (k : ℝ) * (Real.pi / 3) with hθ
  have hvx : cx + r * Real.cos θ - cx = r * Real.cos θ := by ring
  have hvy : cy + r * Real.sin θ - cy = r * Real.sin θ := by ring
  have hsq : (r * Real.cos θ) ^ 2 + (r * Real.sin θ) ^ 2 = r ^ 2 := by
    nlinarith [Real.sin_sq_add_cos_sq θ]
  have hsqrt : Real.sqrt ((r * Real.cos θ) ^ 2 + (r * Real.sin θ) ^ 2) = r := by
    rw [hsq]; exact Real.sqrt_sq hr.le
  have hpy : pyOr1 r = r := by unfold pyOr1; rw [if_neg hr.ne']
  have hdc : r * Real.cos θ / r = Real.cos θ := mul_div_cancel_left₀ _ hr.ne'
  have hds : r * Real.sin θ / r = Real.sin θ := mul_div_cancel_left₀ _ hr.ne'
  simp only [subFrom]
  simp only [hvx, hvy, hsqrt, hpy, hdc, hds]
  rw [show cx + r * Real.cos θ + Real.cos θ * l2 - (cx + r * Real.cos θ) =
      Real.cos θ * l2 from by ring,
    show cy + r * Real.sin θ + Real.sin θ * l2 - (cy + r * Real.sin θ) =
      Real.sin θ * l2 from by ring,
    show (Real.cos θ * l2) ^ 2 + (Real.sin θ * l2) ^ 2 = l2 ^ 2 from by
      nlinarith [Real.sin_sq_add_cos_sq θ]]
  exact Real.sqrt_sq hl2

theorem halfStreamR_valid : ValidFamR halfStreamR := by
  intro s i
  constructor <;> norm_num [halfStreamR]

theorem seedFnTwo_valid : ValidFamR seedFnTwo := by
  intro s i
  unfold seedFnTwo
  split <;> constructor <;> norm_num

theorem iconPure_edge0 (hashFn : String → ℤ) (seedFn : ℤ → Nat → ℝ)
    (name : String) (size : ℤ) :
    ((iconPure hashFn seedFn name size).edges.headD ((0, 0), (0, 0))).1.1 =
      (size : ℝ) / 2 + (size : ℝ) * (26 / 100) *
        Real.cos (Real.pi / 3 * seedFn (hashFn name % 10 ^ 7) 0) := by
  simp [iconPure, uniformR, hexPts, List.range_succ_eq_map]

/-- C10: the icon synthesizer is total — for every name and every
integer size, including `size ≤ 0`, it returns its geometry without
raising: the `or 1` guards on lines 145 and 155 replace a zero length by
1 before dividing, and the randomly drawn vertex index always lies in
range, so no step can fail.  (The hypothesis states the Mersenne
Twister guarantee that every `random()` draw lies in `[0, 1)`.) -/
theorem C10_icon_totality (hashFn : String → ℤ) (seedFn : ℤ → Nat → ℝ)
    (hv : ValidFamR seedFn) (name : String) (size : ℤ) :
    molecule_svg hashFn seedFn name size =
      .ok (iconPure hashFn seedFn name size) :=
  molecule_svg_eq hashFn seedFn hv name size

/-- Witness for C10 at the out-of-contract sizes 0 and -3. -/
theorem C10_witness :
    ValidFamR halfStreamR ∧
      molecule_svg hashFnZero halfStreamR "Mol-001" 0 =
        .ok (iconPure hashFnZero halfStreamR "Mol-001" 0) ∧
      molecule_svg hashFnZero halfStreamR "X" (-3) =
        .ok (iconPure hashFnZero halfStreamR "X" (-3)) :=
  ⟨halfStreamR_valid,
    C10_icon_totality hashFnZero halfStreamR halfStreamR_valid "Mol-001" 0,
    C10_icon_totality hashFnZero halfStreamR halfStreamR_valid "X" (-3)⟩

/-- C5 is false of the code: `molecule_svg` performs no validation at
all, so it does not signal `InvalidArgument` (or any error) when
`size ≤ 0`; at `size = 0` it returns a degenerate icon successfully. -/
theorem C5_counterexample :
    ¬ (∀ size : ℤ, size ≤ 0 →
        ∃ e, molecule_svg hashFnZero halfStreamR "Mol-001" size = .error e) := by
  intro hcl
  obtain ⟨e, he⟩ := hcl 0 le_rfl
  rw [molecule_svg_eq hashFnZero halfStreamR halfStreamR_valid "Mol-001" 0] at he
  cases he

/-- C5 amended: the Candidate Generator fails exactly when
`count ≤ 0` — not through an explicit `InvalidArgument` check but with
the `KeyError` that `sort_values` raises on the column-less DataFrame
built from an empty row list — and the Icon Synthesizer never signals
any error: every `(name, size)` input, `size ≤ 0` included, is accepted. -/
theorem C5_amended_error_contract (seedFn : ℤ → Nat → ℚ) (n seed : ℤ)
    (g : PRNG ℚ) (hashFn : String → ℤ) (seedFnR : ℤ → Nat → ℝ)
    (hvR : ValidFamR seedFnR) (name : String) (size : ℤ) :
    ((∃ e, (generate_demo seedFn n seed g).1 = .error e) ↔ n ≤ 0) ∧
    molecule_svg hashFn seedFnR name size =
      .ok (iconPure hashFn seedFnR name size) :=
  ⟨generate_demo_error_iff seedFn n seed g,
    molecule_svg_eq hashFn seedFnR hvR name size⟩

/-- Witness for the amended C5: the generator fails at `count = 0` and
the icon synthesizer succeeds at `size = -1`. -/
theorem C5_witness :
    ValidFamR halfStreamR ∧
      (((∃ e, (generate_demo halfStream 0 7 gq0).1 = .error e) ↔ (0 : ℤ) ≤ 0) ∧
        molecule_svg hashFnZero halfStreamR "Mol-001" (-1) =
          .ok (iconPure hashFnZero halfStreamR "Mol-001" (-1))) :=
  ⟨halfStreamR_valid,
    C5_amended_error_contract halfStream 0 7 gq0 hashFnZero halfStreamR
      halfStreamR_valid "Mol-001" (-1)⟩

/-- C9: for every name and positive size, the icon has exactly 6 outer
hexagon edges, exactly 3 double-bond offset lines (one per even-indexed
edge 0, 2, 4, by construction), and between 1 and 3 substituents, each
a segment of length `0.24*size` out of a vertex whose far end carries
the filled dot. -/
theorem C9_icon_structure (hashFn : String → ℤ) (seedFn : ℤ → Nat → ℝ)
    (hv : ValidFamR seedFn) (name : String) (size : ℤ) (hsize : 0 < size) :
    ∃ ic, molecule_svg hashFn seedFn name size = .ok ic ∧
      ic.edges.length = 6 ∧ ic.dbl.length = 3 ∧
      1 ≤ ic.subs.length ∧ ic.subs.length ≤ 3 ∧
      ∀ s ∈ ic.subs, s.dot = s.segB ∧
        Real.sqrt ((s.segB.1 - s.segA.1) ^ 2 + (s.segB.2 - s.segA.2) ^ 2) =
          (size : ℝ) * (24 / 100) := by
  refine ⟨iconPure hashFn seedFn name size,
    molecule_svg_eq hashFn seedFn hv name size,
    iconPure_edges_length hashFn seedFn name size,
    iconPure_dbl_length hashFn seedFn name size, ?_, ?_, ?_⟩
  · rw [iconPure_subs_length]
    obtain ⟨h1, _⟩ := @randint_bounds 1 3 (by norm_num)
      ⟨seedFn (hashFn name % 10 ^ 6), 0⟩ (hv (hashFn name % 10 ^ 6))
    omega
  · rw [iconPure_subs_length]
    obtain ⟨_, h3⟩ := @randint_bounds 1 3 (by norm_num)
      ⟨seedFn (hashFn name % 10 ^ 6), 0⟩ (hv (hashFn name % 10 ^ 6))
    omega
  · intro s hs
    have hs' : s ∈ (subsLoopPure
        (hexPts ((size : ℝ) / 2) ((size : ℝ) / 2) ((size : ℝ) * (26 / 100))
          ((uniformR 0 (Real.pi / 3) ⟨seedFn (hashFn name % 10 ^ 7), 0⟩).1))
        ((size : ℝ) / 2) ((size : ℝ) / 2) ((size : ℝ) * (24 / 100))
        (((randint 1 3 ⟨seedFn (hashFn name % 10 ^ 6), 0⟩).1).toNat)
        ((uniformR 0 (Real.pi / 3) ⟨seedFn (hashFn name % 10 ^ 7), 0⟩).2)).1 := hs
    obtain ⟨p, hp, hsp⟩ := subsLoopPure_mem _ _ _ _ (hexPts_length _ _ _ _)
      _ _ (hv (hashFn name % 10 ^ 7)) s hs'
    subst hsp
    refine ⟨rfl, ?_⟩
    exact dist_subFrom ((size : ℝ) / 2) ((size : ℝ) / 2)
      ((size : ℝ) * (26 / 100))
      ((uniformR 0 (Real.pi / 3) ⟨seedFn (hashFn name % 10 ^ 7), 0⟩).1)
      ((size : ℝ) * (24 / 100))
      (by positivity)
      (by positivity) hp

/-- Witness for C9 at `("Mol-001", 64)` with the constant-half stream. -/
theorem C9_witness :
    ValidFamR halfStreamR ∧ (0 : ℤ) < 64 ∧
      (∃ ic, molecule_svg hashFnZero halfStreamR "Mol-001" 64 = .ok ic ∧
        ic.edges.length = 6 ∧ ic.dbl.length = 3 ∧
        1 ≤ ic.subs.length ∧ ic.subs.length ≤ 3 ∧
        ∀ s ∈ ic.subs, s.dot = s.segB ∧
          Real.sqrt ((s.segB.1 - s.segA.1) ^ 2 + (s.segB.2 - s.segA.2) ^ 2) =
            ((64 : ℤ) : ℝ) * (24 / 100)) :=
  ⟨halfStreamR_valid, by norm_num,
    C9_icon_structure hashFnZero halfStreamR halfStreamR_valid "Mol-001" 64
      (by norm_num)⟩

/-- C8 is false of the code: the icon PRNGs are seeded from `hash(name)`
(lines 123 and 150), and Python salts its string hash per process, so
two runs of the program are two different hash functions.  With the
same PRNG algorithm in both runs, a hash function that sends the name
to 0 and one that sends it to 1 select different streams, give
different rotations, and produce different icons — the hash-to-seed
step of the code is not stable across runs.  (Within one process, i.e.
for one hash function, determinism does hold, since the model is a pure
function of `(hashFn, seedFn, name, size)`.) -/
theorem C8_cross_process_determinism_fails :
    ¬ (∀ (hashFnA hashFnB : String → ℤ) (seedFn : ℤ → Nat → ℝ),
        ValidFamR seedFn → ∀ (name : String) (size : ℤ),
          molecule_svg hashFnA seedFn name size =
            molecule_svg hashFnB seedFn name size) := by
  intro hcl
  have h := hcl hashFnZero hashFnOne seedFnTwo seedFnTwo_valid "Mol-001" 50
  rw [molecule_svg_eq hashFnZero seedFnTwo seedFnTwo_valid "Mol-001" 50,
    molecule_svg_eq hashFnOne seedFnTwo seedFnTwo_valid "Mol-001" 50] at h
  have h2 : iconPure hashFnZero seedFnTwo "Mol-001" 50 =
      iconPure hashFnOne seedFnTwo "Mol-001" 50 := by
    injection h
  have h3 := congrArg
    (fun ic : Icon => (ic.edges.headD ((0, 0), (0, 0))).1.1) h2
  simp only [iconPure_edge0] at h3
  rw [show seedFnTwo (hashFnZero "Mol-001" % 10 ^ 7) 0 = 0 from by
      norm_num [hashFnZero, seedFnTwo],
    show seedFnTwo (hashFnOne "Mol-001" % 10 ^ 7) 0 = 1/2 from by
      norm_num [hashFnOne, seedFnTwo],
    mul_zero, Real.cos_zero,
    show Real.pi / 3 * (1/2 : ℝ) = Real.pi / 6 from by ring,
    Real.cos_pi_div_six] at h3
  have hs3 : Real.sqrt 3 < 2 := by
    nlinarith [Real.sq_sqrt (show (0 : ℝ) ≤ 3 by norm_num), Real.sqrt_nonneg 3]
  norm_num at h3
  nlinarith [hs3, h3]

